import Mathlib

/-!
Verification of the Broforce-Templates packaging tools
(`Scripts/src/broforce_tools/thunderstore.py` and `cli.py`).

Embedding conventions:
* Python strings are modelled as `List Char`; `Optional[str]` as `Option (List Char)`.
* Python truthiness of an optional string (`if not v:`) is `pyFalsy`.
* `int(x)` is modelled by `pyInt`, returning `none` where Python raises `ValueError`
  (optional surrounding whitespace, optional sign, decimal digits with the
  underscore-grouping rules of Python 3).
* Exceptions that a function catches are modelled by `Option`/case results;
  a function that "does not raise" is modelled as a total Lean function.
* File/network I/O is passed in as explicit arguments (file contents, lookup
  functions, clock values); writes are returned as data.
-/

set_option maxHeartbeats 1000000

/-- Characters stripped by Python `str.strip()` and matched by the regex
whitespace class (ASCII part). -/
def isPySpace (c : Char) : Bool :=
  c = ' ' || c = '\t' || c = '\n' || c = '\r' || c = '\x0B' || c = '\x0C'

/-- Python `str.strip()`: remove leading and trailing whitespace. -/
def pyStrip (l : List Char) : List Char :=
  ((l.dropWhile isPySpace).reverse.dropWhile isPySpace).reverse

def digitVal (c : Char) : Nat := c.toNat - 48

/-- Digit-run parser for `pyInt`: accepts digits with single interior
underscores (Python 3 grouping), accumulating the value. -/
def pyDigitsAux : List Char → Nat → Option Nat
  | [], acc => some acc
  | c :: rest, acc =>
    if c.isDigit then pyDigitsAux rest (acc * 10 + digitVal c)
    else if c = '_' then
      match rest with
      | [] => none
      | d :: _ => if d.isDigit then pyDigitsAux rest acc else none
    else none

/-- Nonempty digit string (with Python 3 underscore grouping), must start with a digit. -/
def pyDigits : List Char → Option Nat
  | [] => none
  | c :: rest => if c.isDigit then pyDigitsAux (c :: rest) 0 else none

/-- Python `int(x)` on a string: strip whitespace, optional sign, digit run.
Returns `none` where Python raises `ValueError`. -/
def pyInt (l : List Char) : Option Int :=
  match pyStrip l with
  | '+' :: rest => (pyDigits rest).map (fun n => (n : Int))
  | '-' :: rest => (pyDigits rest).map (fun n => -(n : Int))
  | t => (pyDigits t).map (fun n => (n : Int))

/-- Python `str.split(sep)` for a one-character separator: `"".split(".") = [""]`,
separators delimit (possibly empty) groups. -/
def splitOnChar (sep : Char) : List Char → List (List Char)
  | [] => [[]]
  | c :: rest =>
    if c = sep then [] :: splitOnChar sep rest
    else
      match splitOnChar sep rest with
      | g :: gs => (c :: g) :: gs
      | [] => [[c]]

/-- The list comprehension `[int(x) for x in v.split('.')]`: `none` if any
segment fails to parse (Python raises `ValueError`). -/
def parseParts : List (List Char) → Option (List Int)
  | [] => some []
  | g :: gs =>
    match pyInt g with
    | none => none
    | some n => (parseParts gs).map (fun l => n :: l)

/-- The zero-padding `while` loops of `compare_versions`: append `0` until
the list has length at least `n`. -/
def padRight (l : List Int) (n : Nat) : List Int :=
  l ++ List.replicate (n - l.length) 0

/-- The comparison loop of `compare_versions`: first unequal pair decides. -/
def cmpLex : List Int → List Int → Int
  | [], _ => 0
  | _ :: _, [] => 0
  | a :: as, b :: bs => if a > b then 1 else if a < b then -1 else cmpLex as bs

/-- Comparison of parsed version component lists after zero padding
(`thunderstore.py` `compare_versions`, numeric path). -/
def compare_parts (p1 p2 : List Int) : Int :=
  cmpLex (padRight p1 p2.length) (padRight p2 p1.length)

/-- Python truthiness test `not v` for an optional string. -/
def pyFalsy : Option (List Char) → Bool
  | none => true
  | some s => s.isEmpty

/-- Outcome of the `try` block of `compare_versions`: if either side failed to
parse (`ValueError`), the result is `0`. -/
def compare_parsed : Option (List Int) → Option (List Int) → Int
  | some p1, some p2 => compare_parts p1 p2
  | none, _ => 0
  | some _, none => 0

/-- `thunderstore.py` `compare_versions(v1, v2)`: `-1` if the first argument is
falsy, `1` if the second is, otherwise split each on `.`, parse the segments
as ints, zero-pad to a common length and compare; any parse failure
(`ValueError`) yields `0`. -/
def compare_versions (v1 v2 : Option (List Char)) : Int :=
  if pyFalsy v1 then -1
  else if pyFalsy v2 then 1
  else compare_parsed (parseParts (splitOnChar '.' (v1.getD [])))
                      (parseParts (splitOnChar '.' (v2.getD [])))

/-- A version string as described by the spec for claim C2: at most three
dot-separated components, each a nonempty run of decimal digits. -/
def isNumericVersion (a : List Char) : Prop :=
  (splitOnChar '.' a).length ≤ 3 ∧
    ∀ g ∈ splitOnChar '.' a, g ≠ [] ∧ ∀ c ∈ g, c.isDigit

theorem pyFalsy_some_ne (a : List Char) (ha : a ≠ []) : pyFalsy (some a) = false := by
  cases a with
  | nil => exact absurd rfl ha
  | cons c r => rfl

theorem cmpLex_nil_left (l : List Int) : cmpLex [] l = 0 := by cases l <;> rfl

theorem cmpLex_neg (l1 l2 : List Int) : cmpLex l1 l2 = -cmpLex l2 l1 := by
  induction l1 generalizing l2 with
  | nil => cases l2 <;> rfl
  | cons a as ih =>
    cases l2 with
    | nil => rfl
    | cons b bs =>
      rcases lt_trichotomy a b with h | h | h
      · simp [cmpLex, gt_iff_lt, h, lt_asymm h]
      · subst h
        simp [cmpLex, gt_iff_lt, lt_irrefl, ih]
      · simp [cmpLex, gt_iff_lt, h, lt_asymm h]

theorem cmpLex_self (l : List Int) : cmpLex l l = 0 := by
  induction l with
  | nil => rfl
  | cons a as ih => simp [cmpLex, lt_irrefl, ih]

theorem padRight_self_length (p : List Int) : padRight p p.length = p := by
  simp [padRight]

theorem compare_parts_self (p : List Int) : compare_parts p p = 0 := by
  simp [compare_parts, padRight_self_length, cmpLex_self]

theorem compare_parts_neg (p1 p2 : List Int) :
    compare_parts p1 p2 = -compare_parts p2 p1 := by
  unfold compare_parts
  exact cmpLex_neg _ _

theorem compare_parsed_neg (o1 o2 : Option (List Int)) :
    compare_parsed o1 o2 = -compare_parsed o2 o1 := by
  cases o1 with
  | none => cases o2 <;> simp [compare_parsed]
  | some p1 =>
    cases o2 with
    | none => simp [compare_parsed]
    | some p2 => simpa [compare_parsed] using compare_parts_neg p1 p2

theorem splitOnChar_ne_nil (sep : Char) (l : List Char) : splitOnChar sep l ≠ [] := by
  cases l with
  | nil => simp [splitOnChar]
  | cons c rest =>
    simp only [splitOnChar]
    split
    · simp
    · split <;> simp_all

/-- Splitting distributes over the separator: the groups of `a ++ sep :: r`
are the groups of `a` followed by the groups of `r`. -/
theorem splitOnChar_append (sep : Char) (a r : List Char) :
    splitOnChar sep (a ++ sep :: r) = splitOnChar sep a ++ splitOnChar sep r := by
  induction a with
  | nil =>
    simp [splitOnChar]
  | cons c a' ih =>
    by_cases hc : c = sep
    · subst hc
      simp [splitOnChar, ih]
    · simp only [List.cons_append, splitOnChar, hc, if_false]
      simp only [List.append_eq]
      rw [ih]
      rcases h : splitOnChar sep a' with _ | ⟨g, gs⟩
      · exact absurd h (splitOnChar_ne_nil sep a')
      · simp [h]

theorem splitOnChar_no_sep (sep : Char) (l : List Char)
    (h : ∀ c ∈ l, c ≠ sep) : splitOnChar sep l = [l] := by
  induction l with
  | nil => simp [splitOnChar]
  | cons c rest ih =>
    have hc : c ≠ sep := h c (by simp)
    have hrest : ∀ x ∈ rest, x ≠ sep := fun x hx => h x (by simp [hx])
    simp [splitOnChar, hc, ih hrest]

theorem parseParts_append (xs ys : List (List Char)) :
    parseParts (xs ++ ys) =
      (parseParts xs).bind (fun a => (parseParts ys).map (fun b => a ++ b)) := by
  induction xs with
  | nil => cases h : parseParts ys <;> simp [parseParts, h]
  | cons g gs ih =>
    simp only [List.cons_append, parseParts]
    cases h : pyInt g with
    | none => simp
    | some n =>
      simp only [List.append_eq]
      rw [ih]
      cases hg : parseParts gs with
      | none => simp
      | some a =>
        cases hy : parseParts ys with
        | none => simp
        | some b => simp

theorem parseParts_none_iff (xs : List (List Char)) :
    parseParts xs = none ↔ ∃ g ∈ xs, pyInt g = none := by
  induction xs with
  | nil => simp [parseParts]
  | cons g gs ih =>
    simp only [parseParts]
    cases h : pyInt g with
    | none =>
      exact ⟨fun _ => ⟨g, List.mem_cons_self g gs, h⟩, fun _ => rfl⟩
    | some n =>
      cases hr : parseParts gs with
      | none =>
        refine ⟨fun _ => ?_, fun _ => rfl⟩
        rcases ih.mp hr with ⟨g', hg', hn⟩
        exact ⟨g', List.mem_cons_of_mem _ hg', hn⟩
      | some a =>
        refine ⟨fun hc => absurd hc (by simp), ?_⟩
        rintro ⟨g', hg', hnone⟩
        rcases List.mem_cons.mp hg' with rfl | hg'
        · rw [h] at hnone
          exact absurd hnone (by simp)
        · have h2 := ih.mpr ⟨g', hg', hnone⟩
          rw [h2] at hr
          exact absurd hr (by simp)

/-- Antisymmetry of `compare_versions` for any two truthy (nonempty) strings. -/
theorem compare_versions_antisym (a b : List Char) (ha : a ≠ []) (hb : b ≠ []) :
    compare_versions (some a) (some b) = -compare_versions (some b) (some a) := by
  simp only [compare_versions, pyFalsy_some_ne a ha, pyFalsy_some_ne b hb,
    Bool.false_eq_true, if_false, Option.getD_some]
  exact compare_parsed_neg _ _

/-- Reflexivity of `compare_versions` for any truthy (nonempty) string. -/
theorem compare_versions_self (a : List Char) (ha : a ≠ []) :
    compare_versions (some a) (some a) = 0 := by
  simp only [compare_versions, pyFalsy_some_ne a ha, if_false, Option.getD_some]
  cases hpa : parseParts (splitOnChar '.' a) <;>
    simp [compare_parsed, compare_parts_self]

/-- Appending an extra `.0` component never changes how a truthy string
compares to itself: zero-padding stability. -/
theorem compare_versions_pad_zero (a : List Char) (ha : a ≠ []) :
    compare_versions (some a) (some (a ++ ['.', '0'])) = 0 := by
  have hap : a ++ ['.', '0'] ≠ [] := by simp
  simp only [compare_versions, pyFalsy_some_ne a ha, pyFalsy_some_ne _ hap,
    if_false, Option.getD_some]
  have hsplit : splitOnChar '.' (a ++ ['.', '0']) =
      splitOnChar '.' a ++ [['0']] := by
    have := splitOnChar_append '.' a ['0']
    simpa [splitOnChar] using this
  rw [hsplit, parseParts_append]
  have h0 : parseParts [['0']] = some [(0 : Int)] := by decide
  rw [h0]
  cases hpa : parseParts (splitOnChar '.' a) with
  | none => simp [compare_parsed]
  | some p =>
    have hlen : p.length + 1 - p.length = 1 := by omega
    have hpad1 : padRight p (p.length + 1) = p ++ [0] := by
      simp [padRight, hlen]
    have hpad2 : padRight (p ++ [(0 : Int)]) p.length = p ++ [0] := by
      simp [padRight, Nat.sub_eq_zero_of_le (Nat.le_succ _)]
    simp [compare_parsed, compare_parts, hpad1, hpad2, cmpLex_self]

theorem isNumericVersion_ne_nil (a : List Char) (h : isNumericVersion a) : a ≠ [] := by
  rintro rfl
  rcases h with ⟨-, h2⟩
  have := h2 [] (by simp [splitOnChar])
  exact this.1 rfl

/-- C2: for version strings of at most three dot-separated numeric components,
`compare_versions` is antisymmetric (`compare(a,b) = -compare(b,a)`), reflexive
(`compare(a,a) = 0`), stable under right-zero-padding (appending `.0` compares
equal), and in particular `compare("1.2","1.2.0") = 0`. -/
theorem compare_versions_laws (a b : List Char)
    (ha : isNumericVersion a) (hb : isNumericVersion b) :
    compare_versions (some a) (some b) = -compare_versions (some b) (some a) ∧
    compare_versions (some a) (some a) = 0 ∧
    compare_versions (some a) (some (a ++ ['.', '0'])) = 0 ∧
    compare_versions (some "1.2".toList) (some "1.2.0".toList) = 0 := by
  have ha' := isNumericVersion_ne_nil a ha
  have hb' := isNumericVersion_ne_nil b hb
  exact ⟨compare_versions_antisym a b ha' hb', compare_versions_self a ha',
    compare_versions_pad_zero a ha', by decide⟩

/-- C2 witness: the laws hold at the concrete pair `"1.2"`, `"1.2.0"`. -/
theorem compare_versions_laws_witness :
    compare_versions (some "1.2".toList) (some "1.2.0".toList) =
      -compare_versions (some "1.2.0".toList) (some "1.2".toList) ∧
    compare_versions (some "1.2".toList) (some "1.2".toList) = 0 := by
  have h := compare_versions_laws "1.2".toList "1.2.0".toList
    (by constructor <;> decide) (by constructor <;> decide)
  exact ⟨h.1, h.2.1⟩

/-- C9: an absent (`None`) version compares less than any present (nonempty)
version string, and a present version compares greater than an absent one. -/
theorem compare_versions_none (v : List Char) (hv : v ≠ []) :
    compare_versions none (some v) = -1 ∧ compare_versions (some v) none = 1 := by
  constructor
  · rfl
  · simp only [compare_versions, pyFalsy_some_ne v hv, Bool.false_eq_true,
      if_false]
    rfl

/-- C9 witness: `compare(None, "0.0.1") = -1` and `compare("0.0.1", None) = 1`. -/
theorem compare_versions_none_witness :
    compare_versions none (some "0.0.1".toList) = -1 ∧
    compare_versions (some "0.0.1".toList) none = 1 :=
  compare_versions_none "0.0.1".toList (by decide)

/-- C10: with both arguments absent (`None` or empty), `compare_versions`
returns `-1` rather than `0`, so antisymmetry fails on the pair
`(None, None)`. -/
theorem compare_versions_both_absent :
    compare_versions none none = -1 ∧
    compare_versions (some []) (some []) = -1 ∧
    compare_versions none none ≠ -compare_versions none none := by
  refine ⟨by decide, by decide, by decide⟩

/-- C8 counterexample: `"x"` has a non-numeric segment, yet
`compare_versions("x", "")` returns `1`, not `0` — the falsy-string branch
takes precedence over the treat-as-equal rule, refuting the claim as stated
over all inputs. -/
theorem compare_versions_malformed_counterexample :
    (splitOnChar '.' "x".toList).any (fun g => (pyInt g).isNone) = true ∧
    compare_versions (some "x".toList) (some "".toList) = 1 := by
  constructor <;> decide

/-- C8 (amended): for truthy (nonempty) version strings, a non-numeric
segment on either side makes `compare_versions` return `0` without raising;
an empty first argument instead returns `-1` and an empty second argument
(with truthy first) returns `1`. -/
theorem compare_versions_malformed (a b : List Char) (ha : a ≠ []) (hb : b ≠ [])
    (hbad : (∃ g ∈ splitOnChar '.' a, pyInt g = none) ∨
            (∃ g ∈ splitOnChar '.' b, pyInt g = none)) :
    compare_versions (some a) (some b) = 0 ∧
    compare_versions (some []) (some b) = -1 ∧
    compare_versions (some a) (some []) = 1 := by
  refine ⟨?_, rfl, ?_⟩
  · simp only [compare_versions, pyFalsy_some_ne a ha, pyFalsy_some_ne b hb,
      if_false, Option.getD_some]
    rcases hbad with h | h
    · rw [(parseParts_none_iff _).mpr h]
      rfl
    · rw [(parseParts_none_iff _).mpr h]
      cases parseParts (splitOnChar '.' a) <;> rfl
  · simp only [compare_versions, pyFalsy_some_ne a ha, Bool.false_eq_true,
      if_false]
    rfl

/-- C8 witness: at the concrete pair `"1.2.x"`, `"1.2"` the amended claim's
hypotheses hold and `compare_versions` returns `0`. -/
theorem compare_versions_malformed_witness :
    compare_versions (some "1.2.x".toList) (some "1.2".toList) = 0 :=
  (compare_versions_malformed "1.2.x".toList "1.2".toList (by decide) (by decide)
    (Or.inl ⟨"x".toList, by decide, by decide⟩)).1

/-! Version reconciliation in `do_package` (cli.py, no explicit override):
three labelled candidates, absent (`None`) ones dropped, fatal exit when none
remain, otherwise a selection loop keeping the first candidate and replacing
the current best whenever `compare_versions(ver, highest) > 0`. -/

/-- The selection loop of `do_package`: state is (highest_version,
highest_source); the first candidate always wins against the initial `None`. -/
def selectHighestAux : List (String × List Char) → List Char → String → List Char × String
  | [], hv, hs => (hv, hs)
  | (src, ver) :: rest, hv, hs =>
    if compare_versions (some ver) (some hv) > 0 then selectHighestAux rest ver src
    else selectHighestAux rest hv hs

/-- `for source, ver in valid_versions.items(): ...` with
`highest_version = None` initially. -/
def selectHighest : List (String × List Char) → Option (List Char × String)
  | [] => none
  | (src, ver) :: rest => some (selectHighestAux rest ver src)

/-- The `versions` dict of `do_package` filtered by `v is not None`, in
insertion order: changelog file, `manifest.json`, `Info.json/.mod.json`. -/
def candidateList (changelogName : String) (cv mv iv : Option (List Char)) :
    List (String × List Char) :=
  ([(changelogName, cv), ("manifest.json", mv), ("Info.json/.mod.json", iv)]).filterMap
    (fun p => p.2.map (fun x => (p.1, x)))

/-- Version reconciliation of `do_package` (cli.py): `.error ()` models the
fatal `typer.Exit(1)` when no candidate version exists. -/
def reconcile_version (changelogName : String) (cv mv iv : Option (List Char)) :
    Except Unit (List Char × String) :=
  match selectHighest (candidateList changelogName cv mv iv) with
  | none => .error ()
  | some r => .ok r

/-- Following the spec's words (§4.5): the pairwise maximum obtained by
repeatedly applying the comparator across the available candidates, with no
reference to the source labels. -/
def spec_pairwise_max_aux : List (List Char) → List Char → List Char
  | [], h => h
  | v :: rest, h =>
    spec_pairwise_max_aux rest (if compare_versions (some v) (some h) > 0 then v else h)

/-- Spec-side pairwise maximum over a candidate version list. -/
def spec_pairwise_max : List (List Char) → Option (List Char)
  | [] => none
  | v :: rest => some (spec_pairwise_max_aux rest v)

theorem selectHighestAux_fst (l : List (String × List Char)) (hv : List Char) (hs : String) :
    (selectHighestAux l hv hs).1 = spec_pairwise_max_aux (l.map Prod.snd) hv := by
  induction l generalizing hv hs with
  | nil => rfl
  | cons p rest ih =>
    obtain ⟨src, ver⟩ := p
    by_cases hcmp : compare_versions (some ver) (some hv) > 0 <;>
      simp [selectHighestAux, spec_pairwise_max_aux, hcmp, ih]

theorem selectHighestAux_mem (l : List (String × List Char)) (hv : List Char) (hs : String) :
    ((selectHighestAux l hv hs).2, (selectHighestAux l hv hs).1) ∈ (hs, hv) :: l := by
  induction l generalizing hv hs with
  | nil => simp [selectHighestAux]
  | cons p rest ih =>
    obtain ⟨src, ver⟩ := p
    by_cases hcmp : compare_versions (some ver) (some hv) > 0
    · simp only [selectHighestAux, hcmp, if_true]
      rcases List.mem_cons.mp (ih ver src) with h | h
      · rw [List.mem_cons, List.mem_cons]
        exact Or.inr (Or.inl h)
      · exact List.mem_cons_of_mem _ (List.mem_cons_of_mem _ h)
    · simp only [selectHighestAux, hcmp, if_false]
      rcases List.mem_cons.mp (ih hv hs) with h | h
      · exact List.mem_cons.mpr (Or.inl h)
      · exact List.mem_cons_of_mem _ (List.mem_cons_of_mem _ h)

/-- C1: in the packaging flow without an override version, the chosen version
is the spec's pairwise maximum (repeated comparator application) over the
present candidates; the winning (source, version) pair is one of the
candidates, the chosen version does not depend on the source labels (it equals
the label-free pairwise maximum, the label being diagnostic only); and when
all three candidates are absent the run exits fatally. -/
theorem reconcile_version_correct (changelogName : String)
    (cv mv iv : Option (List Char)) :
    (cv = none ∧ mv = none ∧ iv = none →
      reconcile_version changelogName cv mv iv = .error ()) ∧
    (∀ v s, reconcile_version changelogName cv mv iv = .ok (v, s) →
      (s, v) ∈ candidateList changelogName cv mv iv ∧
        spec_pairwise_max ((candidateList changelogName cv mv iv).map Prod.snd) =
          some v) ∧
    ((cv ≠ none ∨ mv ≠ none ∨ iv ≠ none) →
      ∃ v s, reconcile_version changelogName cv mv iv = .ok (v, s)) := by
  refine ⟨?_, ?_, ?_⟩
  · rintro ⟨rfl, rfl, rfl⟩
    rfl
  · intro v s hok
    rcases hC : candidateList changelogName cv mv iv with _ | ⟨⟨s0, v0⟩, rest⟩
    · rw [reconcile_version, hC] at hok
      exact absurd hok (by simp [selectHighest])
    · rw [reconcile_version, hC] at hok
      simp only [selectHighest, Except.ok.injEq] at hok
      have hv : (selectHighestAux rest v0 s0).1 = v := by rw [hok]
      have hs : (selectHighestAux rest v0 s0).2 = s := by rw [hok]
      constructor
      · rw [← hv, ← hs]
        exact selectHighestAux_mem rest v0 s0
      · rw [← hv, selectHighestAux_fst]
        simp [spec_pairwise_max]
  · intro hne
    have hCne : candidateList changelogName cv mv iv ≠ [] := by
      rcases hne with h | h | h
      · rcases Option.ne_none_iff_exists'.mp h with ⟨a, rfl⟩
        simp [candidateList]
      · rcases Option.ne_none_iff_exists'.mp h with ⟨a, rfl⟩
        cases cv <;> simp [candidateList]
      · rcases Option.ne_none_iff_exists'.mp h with ⟨a, rfl⟩
        cases cv <;> cases mv <;> simp [candidateList]
    rcases hC : candidateList changelogName cv mv iv with _ | ⟨⟨s0, v0⟩, rest⟩
    · exact absurd hC hCne
    · refine ⟨(selectHighestAux rest v0 s0).1, (selectHighestAux rest v0 s0).2, ?_⟩
      rw [reconcile_version, hC]
      simp [selectHighest]

/-- C1 witness: with changelog `2.0.0`, manifest `1.9.0` and no info-file
version, the reconciled version is `2.0.0` sourced from the changelog, which
is the spec-side pairwise maximum of the candidates. -/
theorem reconcile_version_correct_witness :
    ("Changelog.md", "2.0.0".toList) ∈
      candidateList "Changelog.md" (some "2.0.0".toList) (some "1.9.0".toList) none ∧
    spec_pairwise_max
      ((candidateList "Changelog.md" (some "2.0.0".toList) (some "1.9.0".toList)
        none).map Prod.snd) = some "2.0.0".toList :=
  (reconcile_version_correct "Changelog.md" (some "2.0.0".toList)
    (some "1.9.0".toList) none).2.1 "2.0.0".toList "Changelog.md" (by rfl)

/-! Dependency reconciliation in `do_package` (cli.py): the outdated pass over
`manifest_data['dependencies']` against the registry strings, then the missing
pass over the dependencies detected from the .csproj file, each applied
all-or-nothing behind a single confirmation. -/

/-- `s.startswith(p)` on character lists. -/
def isPrefixOfB : List Char → List Char → Bool
  | [], _ => true
  | _ :: _, [] => false
  | p :: ps, c :: cs => p = c && isPrefixOfB ps cs

/-- Python `dep.rsplit('-', 1)`: split at the last occurrence of the
separator; `none` when the separator does not occur (Python then returns a
one-element list and the `len(parts) == 2` test fails). -/
def rsplitLast (sep : Char) : List Char → Option (List Char × List Char)
  | [] => none
  | c :: rest =>
    match rsplitLast sep rest with
    | some (a, b) => some (c :: a, b)
    | none => if c = sep then some ([], rest) else none

/-- One iteration of the outdated-dependency loop: split off the version at
the last hyphen, look for the first registry value (dict order) starting with
`namePart + "-"`, stage a replacement when the full strings differ, and append
to `updated_deps`. Entries with no hyphen or no registry match are kept. -/
def outdatedStep (registry : List (List Char))
    (acc : List (List Char × List Char) × List (List Char)) (dep : List Char) :
    List (List Char × List Char) × List (List Char) :=
  match rsplitLast '-' dep with
  | some (namePart, _) =>
    match registry.find? (fun r => isPrefixOfB (namePart ++ ['-']) r) with
    | some r =>
      if dep ≠ r then (acc.1 ++ [(dep, r)], acc.2 ++ [r])
      else (acc.1, acc.2 ++ [dep])
    | none => (acc.1, acc.2 ++ [dep])
  | none => (acc.1, acc.2 ++ [dep])

/-- The outdated-dependency pass: returns (`outdated_deps` pairs,
`updated_deps`). -/
def outdatedPass (current registry : List (List Char)) :
    List (List Char × List Char) × List (List Char) :=
  current.foldl (outdatedStep registry) ([], [])

/-- Result of dependency reconciliation: the staged outdated pairs, the staged
missing dependencies, and the value of `manifest_data['dependencies']` at the
time the manifest is rewritten. -/
structure DepOutcome where
  outdated : List (List Char × List Char)
  missing : List (List Char)
  final : List (List Char)

/-- Dependency reconciliation of `do_package`: outdated pass with batch
confirmation `update_answer`, then missing pass over `detected` with batch
confirmation `add_answer`. When `updated_deps` is empty (only possible with an
empty current list) Python builds the new list from `list(current_dep_set)`,
an empty set, modelled here by the empty `current`. -/
def dep_reconcile (current detected registry : List (List Char))
    (update_answer add_answer : Bool) : DepOutcome :=
  let outdated := (outdatedPass current registry).1
  let updatedLoop := (outdatedPass current registry).2
  let updated_deps := if outdated.isEmpty then current else updatedLoop
  let current_dep_set := if updated_deps.isEmpty then current else updated_deps
  let missing := detected.filter (fun d => ¬ current_dep_set.contains d)
  { outdated := outdated
    missing := missing
    final :=
      if ¬ missing.isEmpty ∧ add_answer then
        (if updated_deps.isEmpty then current else updated_deps) ++ missing
      else if ¬ outdated.isEmpty ∧ update_answer then updatedLoop
      else current }

/-- C4: a manifest dependency whose registry prefix matches but whose version
suffix differs is staged as outdated (concretely, `RocketLib-RocketLib-2.0.0`
against registry latest `RocketLib-RocketLib-2.4.0`), and when the single
batch confirmation is declined (and the missing pass stages nothing) the
dependency list written back to the manifest equals the list that was read. -/
theorem dep_reconcile_decline_unchanged (current detected registry : List (List Char))
    (add_answer : Bool)
    (hmiss : (dep_reconcile current detected registry false add_answer).missing = []) :
    (dep_reconcile current detected registry false add_answer).final = current ∧
    (dep_reconcile ["RocketLib-RocketLib-2.0.0".toList] []
        ["UMM-UMM-1.0.2".toList, "RocketLib-RocketLib-2.4.0".toList,
         "BroMaker-BroMaker-2.6.0".toList] false false).outdated =
      [("RocketLib-RocketLib-2.0.0".toList, "RocketLib-RocketLib-2.4.0".toList)] := by
  constructor
  · simp only [dep_reconcile] at hmiss ⊢
    rw [hmiss]
    simp
  · decide

/-- C4 witness: at the concrete scenario (one outdated RocketLib dependency,
nothing detected as missing, batch update declined) the written list equals
the read list. -/
theorem dep_reconcile_decline_unchanged_witness :
    (dep_reconcile ["RocketLib-RocketLib-2.0.0".toList] []
        ["UMM-UMM-1.0.2".toList, "RocketLib-RocketLib-2.4.0".toList,
         "BroMaker-BroMaker-2.6.0".toList] false false).final =
      ["RocketLib-RocketLib-2.0.0".toList] :=
  (dep_reconcile_decline_unchanged ["RocketLib-RocketLib-2.0.0".toList] []
    ["UMM-UMM-1.0.2".toList, "RocketLib-RocketLib-2.4.0".toList,
     "BroMaker-BroMaker-2.6.0".toList] false (by decide)).1

/-! The dependency-version cache (`thunderstore.py` `get_dependency_versions`):
a cache file holding `{timestamp, versions}`, a 24-hour freshness window, and
network lookups with hard-coded fallbacks on the miss path. -/

/-- `FALLBACK_DEPENDENCY_VERSIONS` from `thunderstore.py`. -/
def FALLBACK_DEPENDENCY_VERSIONS : List (String × String) :=
  [("UMM", "1.0.2"), ("RocketLib", "2.4.0"), ("BroMaker", "2.6.0")]

/-- `THUNDERSTORE_PACKAGES` from `thunderstore.py`: dependency name paired
with (namespace, package). -/
def THUNDERSTORE_PACKAGES : List (String × String × String) :=
  [("UMM", "UMM", "UMM"), ("RocketLib", "RocketLib", "RocketLib"),
   ("BroMaker", "BroMaker", "BroMaker")]

/-- `CACHE_DURATION = 24 * 60 * 60` seconds. Timestamps are modelled as
integer seconds (the Python floats involved are far below the range where
double rounding could flip this comparison). -/
def CACHE_DURATION : Int := 24 * 60 * 60

/-- `FALLBACK_DEPENDENCY_VERSIONS[dep_name]`; total because every tracked
dependency has a fallback entry. -/
def fallbackFor (dep : String) : String :=
  ((FALLBACK_DEPENDENCY_VERSIONS.find? (fun p => p.1 = dep)).map Prod.snd).getD ""

/-- Parsed cache-file contents: `cache_data.get('timestamp', 0)` and
`cache_data.get('versions', {})` read optional fields of the JSON object. -/
structure CacheData where
  timestamp : Option Int
  versions : Option (List (String × String))

/-- How reading the cache file can go: the file is missing, it cannot be read
or parsed (`json.JSONDecodeError` / `OSError`, caught and ignored), or it
parses to a JSON object. A non-object JSON top-level value is outside the
model (Python would raise `AttributeError` on `.get`; the claim classifies
corruption as invalid JSON or OS errors only). -/
inductive CacheRead
  | missing
  | unreadable
  | parsed (d : CacheData)

/-- Result of `get_dependency_versions`: the returned map plus the cache-file
write it attempts, if any (`none` on the fresh-cache path; a failing write
raises `OSError` which is swallowed and does not change the returned data). -/
structure DepVersionsResult where
  result : List (String × String)
  cacheWrite : Option (Int × List (String × String))
deriving DecidableEq

/-- The resolution loop of `get_dependency_versions` plus the cache write:
for each tracked dependency query the network (`net ns pkg` models
`fetch_thunderstore_version`; `none` is a lookup failure and a falsy empty
string also falls back, per `if version:`), then write everything back with
timestamp `now`. -/
def fetchAllVersions (now : Int) (net : String → String → Option String) :
    DepVersionsResult :=
  let versions := THUNDERSTORE_PACKAGES.map (fun p =>
    (p.1, match net p.2.1 p.2.2 with
          | some v => if v ≠ "" then v else fallbackFor p.1
          | none => fallbackFor p.1))
  ⟨versions, some (now, versions)⟩

/-- `get_dependency_versions`: return the cached map when the cache file
exists, parses, is fresh (`time.time() - cache_time < CACHE_DURATION`) and
holds a truthy versions map; otherwise resolve every tracked dependency and
write the combined result back with timestamp `now`. -/
def get_dependency_versions (cache : CacheRead) (now : Int)
    (net : String → String → Option String) : DepVersionsResult :=
  match cache with
  | .parsed d =>
    if now - d.timestamp.getD 0 < CACHE_DURATION then
      if d.versions.getD [] ≠ [] then ⟨d.versions.getD [], none⟩
      else fetchAllVersions now net
    else fetchAllVersions now net
  | _ => fetchAllVersions now net

/-- C5 counterexample: with current time `0` and a cached timestamp one
million seconds in the future — not within 86400 seconds of the current
time — the function still returns the cached map, because the code's
freshness test `now - cache_time < 86400` accepts any future timestamp. -/
theorem get_dependency_versions_future_counterexample :
    get_dependency_versions
        (.parsed ⟨some 1000000, some [("UMM", "9.9.9")]⟩) 0 (fun _ _ => none) =
      ⟨[("UMM", "9.9.9")], none⟩ ∧
    ¬ (((0 : Int) - 1000000).natAbs < 86400) := by
  constructor
  · rfl
  · decide

/-- C5 (amended): the cached map is returned exactly when the cache file
exists, parses as a JSON object, records a non-empty versions map and carries
a timestamp less than 86400 seconds older than the current time (future
timestamps always count as fresh); any cache corruption (invalid JSON or OS
error) is a cache miss, never an error, and on every miss path each tracked
dependency is resolved via the network lookup with its hard-coded fallback on
failure, the combined result being written back with a fresh timestamp. -/
theorem get_dependency_versions_cache (cache : CacheRead) (now : Int)
    (net : String → String → Option String) :
    (∀ d, cache = .parsed d → now - d.timestamp.getD 0 < CACHE_DURATION →
      d.versions.getD [] ≠ [] →
      get_dependency_versions cache now net = ⟨d.versions.getD [], none⟩) ∧
    ((∀ d, cache = .parsed d →
        ¬ (now - d.timestamp.getD 0 < CACHE_DURATION) ∨ d.versions.getD [] = []) →
      get_dependency_versions cache now net = fetchAllVersions now net) ∧
    (fetchAllVersions now net).cacheWrite =
      some (now, (fetchAllVersions now net).result) ∧
    (fetchAllVersions now net).result = THUNDERSTORE_PACKAGES.map (fun p =>
      (p.1, match net p.2.1 p.2.2 with
            | some v => if v ≠ "" then v else fallbackFor p.1
            | none => fallbackFor p.1)) := by
  refine ⟨?_, ?_, rfl, rfl⟩
  · rintro d rfl hfresh hne
    simp [get_dependency_versions, hfresh, hne]
  · intro h
    cases cache with
    | missing => rfl
    | unreadable => rfl
    | parsed d =>
      rcases h d rfl with hstale | hempty
      · simp [get_dependency_versions, hstale]
      · by_cases hfresh : now - d.timestamp.getD 0 < CACHE_DURATION <;>
          simp [get_dependency_versions, hfresh, hempty]

/-- C5 witness: a fresh, non-empty cache entry is returned as-is with no
cache write. -/
theorem get_dependency_versions_cache_witness :
    get_dependency_versions (.parsed ⟨some 0, some [("UMM", "2.0.0")]⟩) 100
        (fun _ _ => none) = ⟨[("UMM", "2.0.0")], none⟩ :=
  (get_dependency_versions_cache (.parsed ⟨some 0, some [("UMM", "2.0.0")]⟩) 100
    (fun _ _ => none)).1 ⟨some 0, some [("UMM", "2.0.0")]⟩ rfl (by decide) (by decide)

/-! Confirmation gates of `do_package` (cli.py). A gate result of `none`
means the run proceeds; `some n` models `typer.Exit(n)` — `0` (plain
`typer.Exit()`) is the clean cancellation, `1` the failure exit. An
interactive prompt answer is `Option Bool` (`none` models questionary
returning `None` for a dismissed prompt). -/

/-- Outdated-changelog gate (cli.py lines 512-531): triggered when a truthy
changelog version compares strictly below the chosen version. -/
def changelog_gate (changelog_version : Option (List Char)) (version : List Char)
    (non_interactive allow_outdated_changelog : Bool) (answer : Option Bool) :
    Option Nat :=
  if pyFalsy changelog_version = false ∧
      compare_versions changelog_version (some version) < 0 then
    if non_interactive then
      if ¬ allow_outdated_changelog then some 1 else none
    else
      match answer with
      | some true => none
      | _ => some 0
  else none

/-- Missing-author gate (cli.py lines 539-566): triggered when the manifest
author is `'Unknown'` or falsy; returns the exit outcome and the namespace
used afterwards (an accepted text prompt replaces it). -/
def author_gate (ns : List Char) (non_interactive : Bool)
    (set_answer : Option Bool) (name_answer : Option (List Char)) :
    Option Nat × List Char :=
  if ns = "Unknown".toList ∨ ns = [] then
    if non_interactive then (some 1, ns)
    else
      match set_answer with
      | none => (some 0, ns)
      | some false => (none, ns)
      | some true =>
        match name_answer with
        | none => (some 0, ns)
        | some n => (none, n)
  else (none, ns)

/-- Outdated-dependencies gate (cli.py lines 590-612): non-interactively the
update defaults to applied unless `--update-deps` is explicitly false;
interactively a dismissed prompt cancels with code 0 and an explicit `False`
merely keeps the old versions. Returns (exit outcome, should_update). -/
def deps_update_gate (outdated_nonempty non_interactive : Bool)
    (update_deps_flag : Option Bool) (answer : Option Bool) :
    Option Nat × Bool :=
  if outdated_nonempty then
    if non_interactive then (none, update_deps_flag.getD true)
    else
      match answer with
      | none => (some 0, false)
      | some b => (none, b)
  else (none, false)

/-- Missing-dependencies gate (cli.py lines 625-650): same shape as the
outdated-dependencies gate. -/
def missing_deps_gate (missing_nonempty non_interactive : Bool)
    (add_flag : Option Bool) (answer : Option Bool) : Option Nat × Bool :=
  if missing_nonempty then
    if non_interactive then (none, add_flag.getD true)
    else
      match answer with
      | none => (some 0, false)
      | some b => (none, b)
  else (none, false)

/-- Pre-existing-archive gate (cli.py lines 712-736): non-interactively
without `--overwrite` it exits with code 1; interactively both a dismissed
prompt and an explicit refusal cancel with code 0. -/
def zip_gate (zip_exists non_interactive overwrite : Bool)
    (answer : Option Bool) : Option Nat :=
  if zip_exists then
    if non_interactive then
      if ¬ overwrite then some 1 else none
    else
      match answer with
      | some true => none
      | _ => some 0
  else none

/-- C7 counterexample: in non-interactive mode with the opt-in flag absent,
the outdated-changelog condition terminates with exit code 1 — a failure, not
the claimed zero-equivalent cancellation — and interactively declining the
outdated-dependency confirmation does not terminate the run at all (the run
proceeds with the old versions). -/
theorem confirm_gates_counterexample :
    changelog_gate (some "1.0.0".toList) "2.0.0".toList true false none = some 1 ∧
    (some 1 ≠ (some 0 : Option Nat)) ∧
    deps_update_gate true false none (some false) = (none, false) := by
  refine ⟨by decide, by decide, by decide⟩

/-- C7 (amended): interactively, declining the outdated-changelog or
pre-existing-archive confirmation cancels cleanly with exit code 0, while
declining the set-author, outdated-dependency or missing-dependency prompts
continues the run without the change (only a dismissed prompt cancels); in
non-interactive mode, an outdated changelog without its opt-in flag, a missing
author, and a pre-existing archive without `--overwrite` terminate with
failure exit code 1, whereas the dependency updates default to being
applied. -/
theorem confirm_gates_behaviour
    (cv : Option (List Char)) (version : List Char) (ns : List Char)
    (flag : Option Bool) (name_answer : Option (List Char)) :
    (pyFalsy cv = false → compare_versions cv (some version) < 0 →
      changelog_gate cv version false false (some false) = some 0) ∧
    zip_gate true false false (some false) = some 0 ∧
    (ns = "Unknown".toList ∨ ns = [] →
      author_gate ns false (some false) name_answer = (none, ns)) ∧
    deps_update_gate true false flag (some false) = (none, false) ∧
    missing_deps_gate true false flag (some false) = (none, false) ∧
    (pyFalsy cv = false → compare_versions cv (some version) < 0 →
      changelog_gate cv version true false none = some 1) ∧
    zip_gate true true false none = some 1 ∧
    (ns = "Unknown".toList ∨ ns = [] →
      (author_gate ns true (some false) name_answer).1 = some 1) ∧
    deps_update_gate true true none none = (none, true) ∧
    missing_deps_gate true true none none = (none, true) := by
  refine ⟨?_, by decide, ?_, rfl, rfl, ?_, by decide, ?_, by decide, by decide⟩
  · intro h1 h2
    simp [changelog_gate, h1, h2]
  · intro h
    simp [author_gate, h]
  · intro h1 h2
    simp [changelog_gate, h1, h2]
  · intro h
    simp only [author_gate]
    rw [if_pos h]
    simp

/-- C7 witness: concrete gate outcomes — interactive decline of the outdated
changelog cancels with code 0, the same condition non-interactively without
the flag fails with code 1, and declining the author prompt proceeds. -/
theorem confirm_gates_behaviour_witness :
    changelog_gate (some "1.0.0".toList) "2.0.0".toList false false
      (some false) = some 0 ∧
    changelog_gate (some "1.0.0".toList) "2.0.0".toList true false none = some 1 ∧
    author_gate "Unknown".toList false (some false) none =
      (none, "Unknown".toList) := by
  have h := confirm_gates_behaviour (some "1.0.0".toList) "2.0.0".toList
    "Unknown".toList none none
  exact ⟨h.1 (by decide) (by decide), h.2.2.2.2.2.1 (by decide) (by decide),
    h.2.2.1 (Or.inl rfl)⟩

/-! Changelog header parsing (`thunderstore.py` `get_latest_version_entries`):
`re.search(r'##\s*v?(\d+\.\d+\.\d+)(.*?)\n(.*?)(?=\n##\s|$)', content,
re.DOTALL)`. The greedy pieces (`\s*`, `v?`, `\d+`) are deterministic because
each character class is disjoint from what the pattern requires next, and the
lazy pieces stop at the first position where their continuation succeeds, so
the search is modelled by a deterministic scanner tried at each position from
the left. -/

/-- Greedy `\d+`: the maximal nonempty digit prefix. -/
def takeDigits1 (l : List Char) : Option (List Char × List Char) :=
  if (l.takeWhile Char.isDigit).isEmpty then none
  else some (l.takeWhile Char.isDigit, l.dropWhile Char.isDigit)

/-- Literal `.` in the version pattern. -/
def expectDot : List Char → Option (List Char)
  | '.' :: r => some r
  | _ => none

/-- `v?` (this regex is case-sensitive: no IGNORECASE flag). -/
def takeOptV : List Char → List Char
  | 'v' :: r => r
  | l => l

/-- `(.*?)\n` under DOTALL: the lazy group captures up to the first newline
and fails when none remains. -/
def splitAtFirstNewline : List Char → Option (List Char × List Char)
  | [] => none
  | c :: r =>
    if c = '\n' then some ([], r)
    else (splitAtFirstNewline r).map (fun p => (c :: p.1, p.2))

/-- The lookahead `(?=\n##\s|$)`: without MULTILINE, `$` matches at the end of
the input or just before a final newline. -/
def blockStop (l : List Char) : Bool :=
  match l with
  | [] => true
  | ['\n'] => true
  | '\n' :: '#' :: '#' :: c :: _ => isPySpace c
  | _ => false

/-- `(.*?)(?=\n##\s|$)`: the lazy entry block extends to the first position
where the lookahead succeeds (it always eventually does, at the end). -/
def takeBlock : List Char → List Char
  | [] => []
  | c :: r => if blockStop (c :: r) then [] else c :: takeBlock r

/-- The part of one match attempt after the literal `##`: `\s*`, `v?`, the
three dot-separated digit groups, the header rest up to the newline, and the
entry block. Returns (group 1, group 2, group 3). -/
def matchHeaderCore (r0 : List Char) : Option (List Char × List Char × List Char) :=
  (takeDigits1 (takeOptV (r0.dropWhile isPySpace))).bind fun p1 =>
  (expectDot p1.2).bind fun r4 =>
  (takeDigits1 r4).bind fun p2 =>
  (expectDot p2.2).bind fun r6 =>
  (takeDigits1 r6).bind fun p3 =>
  (splitAtFirstNewline p3.2).map fun q =>
  (p1.1 ++ '.' :: p2.1 ++ '.' :: p3.1, q.1, takeBlock q.2)

/-- One attempt of the header regex at the current position. -/
def matchHeaderAt : List Char → Option (List Char × List Char × List Char)
  | '#' :: '#' :: r0 => matchHeaderCore r0
  | _ => none

/-- `re.search`: try the pattern at each position from the left. -/
def findHeader : List Char → Option (List Char × List Char × List Char)
  | [] => none
  | c :: rest =>
    match matchHeaderAt (c :: rest) with
    | some r => some r
    | none => findHeader rest

/-- Python `str.lower()` (ASCII range; sufficient for the header text). -/
def pyLower (c : Char) : Char :=
  if 'A' ≤ c ∧ c ≤ 'Z' then Char.ofNat (c.toNat + 32) else c

/-- Python `needle in haystack` substring test. -/
def containsSeqB (pat : List Char) : List Char → Bool
  | [] => isPrefixOfB pat []
  | c :: r => isPrefixOfB pat (c :: r) || containsSeqB pat r

/-- `get_latest_version_entries` (thunderstore.py), pure core on the file
text: the first matching header's version, the unreleased flag
(case-insensitive substring test on group 2), and the stripped `-` entry
lines of group 3. The missing-file and exception paths of the Python function
return `(None, False, [])` around this core. -/
def get_latest_version_entries (content : List Char) :
    Option (List Char) × Bool × List (List Char) :=
  match findHeader content with
  | none => (none, false, [])
  | some (v, g2, g3) =>
    let header_rest := g2.map pyLower
    let is_unreleased := containsSeqB "unreleased".toList header_rest
    let entries := ((splitOnChar '\n' (pyStrip g3)).map pyStrip).filter
      (fun line => ¬ line.isEmpty && isPrefixOfB ['-'] line)
    (some v, is_unreleased, entries)

theorem takeDigits1_spec (l d r : List Char) (h : takeDigits1 l = some (d, r)) :
    d ≠ [] ∧ ∀ c ∈ d, c.isDigit := by
  unfold takeDigits1 at h
  split at h
  · exact absurd h (by simp)
  · rename_i hne
    simp only [Option.some.injEq, Prod.mk.injEq] at h
    obtain ⟨rfl, -⟩ := h
    refine ⟨by simpa using hne, ?_⟩
    intro c hc
    exact List.mem_takeWhile_imp hc

theorem matchHeaderCore_version (r0 v g2 g3 : List Char)
    (h : matchHeaderCore r0 = some (v, g2, g3)) :
    ∃ d1 d2 d3 : List Char,
      v = d1 ++ '.' :: (d2 ++ '.' :: d3) ∧
      d1 ≠ [] ∧ d2 ≠ [] ∧ d3 ≠ [] ∧
      (∀ c ∈ d1, c.isDigit) ∧ (∀ c ∈ d2, c.isDigit) ∧ (∀ c ∈ d3, c.isDigit) := by
  unfold matchHeaderCore at h
  rcases Option.bind_eq_some.mp h with ⟨⟨d1, r3⟩, h1, h⟩
  rcases Option.bind_eq_some.mp h with ⟨r4, h2, h⟩
  rcases Option.bind_eq_some.mp h with ⟨⟨d2, r5⟩, h3, h⟩
  rcases Option.bind_eq_some.mp h with ⟨r6, h4, h⟩
  rcases Option.bind_eq_some.mp h with ⟨⟨d3, r7⟩, h5, h⟩
  rcases Option.map_eq_some'.mp h with ⟨⟨g2', r8⟩, h6, h7⟩
  obtain ⟨hv, -, -⟩ : d1 ++ '.' :: d2 ++ '.' :: d3 = v ∧ g2' = g2 ∧ takeBlock r8 = g3 := by
    simpa [Prod.ext_iff] using h7
  obtain ⟨hd1, hc1⟩ := takeDigits1_spec _ _ _ h1
  obtain ⟨hd2, hc2⟩ := takeDigits1_spec _ _ _ h3
  obtain ⟨hd3, hc3⟩ := takeDigits1_spec _ _ _ h5
  exact ⟨d1, d2, d3, by simpa using hv.symm, hd1, hd2, hd3, hc1, hc2, hc3⟩

theorem matchHeaderAt_version (l v g2 g3 : List Char)
    (h : matchHeaderAt l = some (v, g2, g3)) :
    ∃ d1 d2 d3 : List Char,
      v = d1 ++ '.' :: (d2 ++ '.' :: d3) ∧
      d1 ≠ [] ∧ d2 ≠ [] ∧ d3 ≠ [] ∧
      (∀ c ∈ d1, c.isDigit) ∧ (∀ c ∈ d2, c.isDigit) ∧ (∀ c ∈ d3, c.isDigit) := by
  unfold matchHeaderAt at h
  split at h
  · exact matchHeaderCore_version _ _ _ _ h
  · exact absurd h (by simp)

theorem findHeader_version (content : List Char) :
    ∀ v g2 g3, findHeader content = some (v, g2, g3) →
      ∃ d1 d2 d3 : List Char,
        v = d1 ++ '.' :: (d2 ++ '.' :: d3) ∧
        d1 ≠ [] ∧ d2 ≠ [] ∧ d3 ≠ [] ∧
        (∀ c ∈ d1, c.isDigit) ∧ (∀ c ∈ d2, c.isDigit) ∧ (∀ c ∈ d3, c.isDigit) := by
  induction content with
  | nil => intro v g2 g3 h; exact absurd h (by simp [findHeader])
  | cons c rest ih =>
    intro v g2 g3 h
    unfold findHeader at h
    cases hm : matchHeaderAt (c :: rest) with
    | some r =>
      rw [hm] at h
      simp only [Option.some.injEq] at h
      subst h
      exact matchHeaderAt_version (c :: rest) v g2 g3 hm
    | none =>
      rw [hm] at h
      exact ih v g2 g3 h

/-- Digit characters are not dots. -/
theorem digit_ne_dot (c : Char) (h : c.isDigit = true) : c ≠ '.' := by
  rintro rfl
  exact absurd h (by decide)

/-- C3 (amended): every version a changelog header match yields has exactly
three dot-separated nonempty digit segments; a header with fewer than three
segments does not match and yields no version, while a header with more than
three dot-separated segments still matches, yielding its first three segments
as the version (the remainder is absorbed into the header rest). -/
theorem changelog_header_segments (content : List Char) :
    (∀ v g2 g3, findHeader content = some (v, g2, g3) →
      (splitOnChar '.' v).length = 3 ∧
        ∀ g ∈ splitOnChar '.' v, g ≠ [] ∧ ∀ c ∈ g, c.isDigit) ∧
    (get_latest_version_entries "## v1.2\n- A\n".toList).1 = none ∧
    (get_latest_version_entries "## v1.2.3.4\n- A\n".toList).1 =
      some "1.2.3".toList ∧
    (get_latest_version_entries "## v1.2.3\n- A\n".toList).1 =
      some "1.2.3".toList := by
  refine ⟨?_, by decide, by decide, by decide⟩
  intro v g2 g3 h
  obtain ⟨d1, d2, d3, hv, hd1, hd2, hd3, hc1, hc2, hc3⟩ :=
    findHeader_version content v g2 g3 h
  subst hv
  have hs1 : splitOnChar '.' d1 = [d1] :=
    splitOnChar_no_sep '.' d1 (fun c hc => digit_ne_dot c (hc1 c hc))
  have hs2 : splitOnChar '.' d2 = [d2] :=
    splitOnChar_no_sep '.' d2 (fun c hc => digit_ne_dot c (hc2 c hc))
  have hs3 : splitOnChar '.' d3 = [d3] :=
    splitOnChar_no_sep '.' d3 (fun c hc => digit_ne_dot c (hc3 c hc))
  have hsplit : splitOnChar '.' (d1 ++ '.' :: (d2 ++ '.' :: d3)) = [d1, d2, d3] := by
    rw [splitOnChar_append, hs1, splitOnChar_append, hs2, hs3]
    rfl
  rw [hsplit]
  refine ⟨rfl, ?_⟩
  intro g hg
  simp only [List.mem_cons, List.not_mem_nil, or_false] at hg
  rcases hg with rfl | rfl | rfl
  · exact ⟨hd1, hc1⟩
  · exact ⟨hd2, hc2⟩
  · exact ⟨hd3, hc3⟩

/-- C3 counterexample: the header `## v1.2.3.4` has four dot-separated
segments, yet the parser still matches it and yields the version `1.2.3` —
not "no version from that header" as claimed. -/
theorem changelog_header_four_segments_counterexample :
    (get_latest_version_entries "## v1.2.3.4\n- A\n".toList).1 =
      some "1.2.3".toList := by decide

/-- C3 witness: the matched version of `## v1.2.3` has exactly three nonempty
digit segments. -/
theorem changelog_header_segments_witness :
    (splitOnChar '.' "1.2.3".toList).length = 3 ∧
      ∀ g ∈ splitOnChar '.' "1.2.3".toList, g ≠ [] ∧ ∀ c ∈ g, c.isDigit :=
  (changelog_header_segments "## v1.2.3\n- A\n".toList).1 "1.2.3".toList
    [] "- A".toList (by decide)

/-! Stripping the unreleased marker (`do_package`, cli.py lines 757-773):
`re.sub(r'(##\s*v?\d+\.\d+\.\d+:?)\s*\(unreleased\)', r'\1', changelog_content,
flags=re.IGNORECASE)`. The greedy pieces are again deterministic; `re.sub`
replaces each leftmost non-overlapping match with its group 1 and resumes
scanning after the matched text. IGNORECASE is modelled for the ASCII
literals involved (`v`, `(unreleased)`). -/

/-- Number of `'('` characters in a string: every match of the strip regex
consumes exactly one of them. -/
def countParen : List Char → Nat
  | [] => 0
  | c :: r => (if c = '(' then 1 else 0) + countParen r

/-- `v?` under IGNORECASE, keeping the consumed text for group 1. -/
def takeOptVCI : List Char → List Char × List Char
  | [] => ([], [])
  | c :: r => if c = 'v' ∨ c = 'V' then ([c], r) else ([], c :: r)

/-- `:?`, keeping the consumed text for group 1. -/
def takeOptColon : List Char → List Char × List Char
  | ':' :: r => ([':'], r)
  | l => ([], l)

/-- The case-insensitive literal `(unreleased)` as per-position alternatives. -/
def unrelPat : List (List Char) :=
  [['('], ['u', 'U'], ['n', 'N'], ['r', 'R'], ['e', 'E'], ['l', 'L'],
   ['e', 'E'], ['a', 'A'], ['s', 'S'], ['e', 'E'], ['d', 'D'], [')']]

/-- Match a literal given as per-position alternative characters, returning
the consumed text and the rest. -/
def takeLitAlts : List (List Char) → List Char → Option (List Char × List Char)
  | [], l => some ([], l)
  | _ :: _, [] => none
  | alts :: ps, c :: cs =>
    if c ∈ alts then (takeLitAlts ps cs).map (fun p => (c :: p.1, p.2))
    else none

/-- One attempt of the strip regex at the current position: returns
(group 1 = the matched header text in its original casing, the rest after the
matched `(unreleased)`). The whitespace between `:?` and `(` is matched but
outside group 1. -/
def matchStripAt : List Char → Option (List Char × List Char)
  | '#' :: '#' :: r0 =>
    (takeDigits1 (takeOptVCI (r0.dropWhile isPySpace)).2).bind fun p1 =>
    (expectDot p1.2).bind fun r4 =>
    (takeDigits1 r4).bind fun p2 =>
    (expectDot p2.2).bind fun r6 =>
    (takeDigits1 r6).bind fun p3 =>
    (takeLitAlts unrelPat (((takeOptColon p3.2).2).dropWhile isPySpace)).map fun q =>
    ('#' :: '#' :: (r0.takeWhile isPySpace ++ (takeOptVCI (r0.dropWhile isPySpace)).1 ++
      p1.1 ++ '.' :: p2.1 ++ '.' :: p3.1 ++ (takeOptColon p3.2).1), q.2)
  | _ => none

/-- One `re.sub` pass with explicit fuel; always called with fuel at least the
input length, so the fuel never runs out. At each position: replace a match
with its group 1 and resume after the matched text, else keep the character
and move one position right. -/
def stripFuel : Nat → List Char → List Char
  | 0, t => t
  | n + 1, t =>
    match matchStripAt t with
    | some p => p.1 ++ stripFuel n p.2
    | none =>
      match t with
      | [] => []
      | c :: rest => c :: stripFuel n rest

/-- The `re.sub` call of `do_package` that strips `(unreleased)` markers. -/
def strip_unreleased (t : List Char) : List Char := stripFuel t.length t

theorem countParen_append (x y : List Char) :
    countParen (x ++ y) = countParen x + countParen y := by
  induction x with
  | nil => simp [countParen]
  | cons c r ih => simp [countParen, ih]; omega

theorem countParen_eq_zero (l : List Char) (h : ∀ c ∈ l, c ≠ '(') :
    countParen l = 0 := by
  induction l with
  | nil => rfl
  | cons c r ih =>
    have hc : c ≠ '(' := h c (by simp)
    have hr := ih (fun x hx => h x (by simp [hx]))
    simp [countParen, hc, hr]

theorem countParen_cons_ne (c : Char) (l : List Char) (h : c ≠ '(') :
    countParen (c :: l) = countParen l := by
  simp [countParen, h]

theorem isPySpace_ne_paren (c : Char) (h : isPySpace c = true) : c ≠ '(' := by
  rintro rfl
  exact absurd h (by decide)

theorem isDigit_ne_paren (c : Char) (h : c.isDigit = true) : c ≠ '(' := by
  rintro rfl
  exact absurd h (by decide)

theorem mem_pair_ne_paren (c a b : Char) (ha : a ≠ '(') (hb : b ≠ '(')
    (h : c ∈ [a, b]) : c ≠ '(' := by
  rcases List.mem_cons.mp h with rfl | h
  · exact ha
  · rw [List.mem_singleton] at h
    subst h
    exact hb

theorem takeDigits1_decomp (l d r : List Char) (h : takeDigits1 l = some (d, r)) :
    l = d ++ r := by
  unfold takeDigits1 at h
  split at h
  · exact absurd h (by simp)
  · simp only [Option.some.injEq, Prod.mk.injEq] at h
    obtain ⟨rfl, rfl⟩ := h
    exact (List.takeWhile_append_dropWhile _ _).symm

theorem expectDot_decomp (l r : List Char) (h : expectDot l = some r) :
    l = '.' :: r := by
  unfold expectDot at h
  split at h
  · cases h
    rfl
  · exact absurd h (by simp)

theorem takeOptVCI_decomp (l : List Char) :
    l = (takeOptVCI l).1 ++ (takeOptVCI l).2 ∧ countParen (takeOptVCI l).1 = 0 := by
  cases l with
  | nil => exact ⟨rfl, rfl⟩
  | cons c r =>
    unfold takeOptVCI
    by_cases hc : c = 'v' ∨ c = 'V'
    · simp only [hc, if_true]
      refine ⟨rfl, ?_⟩
      rcases hc with rfl | rfl <;> rfl
    · simp [hc, countParen]

theorem takeOptColon_decomp (l : List Char) :
    l = (takeOptColon l).1 ++ (takeOptColon l).2 ∧
      countParen (takeOptColon l).1 = 0 := by
  unfold takeOptColon
  split
  · exact ⟨rfl, rfl⟩
  · exact ⟨rfl, rfl⟩

theorem takeLitAlts_decomp (pats : List (List Char)) (l lit r : List Char)
    (h : takeLitAlts pats l = some (lit, r)) :
    l = lit ++ r ∧ List.Forall₂ (fun c alts => c ∈ alts) lit pats := by
  induction pats generalizing l lit r with
  | nil =>
    unfold takeLitAlts at h
    simp only [Option.some.injEq, Prod.mk.injEq] at h
    obtain ⟨rfl, rfl⟩ := h
    exact ⟨rfl, List.Forall₂.nil⟩
  | cons alts ps ih =>
    cases l with
    | nil => exact absurd h (by simp [takeLitAlts])
    | cons c cs =>
      unfold takeLitAlts at h
      split at h
      · rcases Option.map_eq_some'.mp h with ⟨⟨lit', r'⟩, hrec, heq⟩
        obtain ⟨hl, hr⟩ : c :: lit' = lit ∧ r' = r := by
          simpa [Prod.ext_iff] using heq
        obtain ⟨hdec, hfa⟩ := ih cs lit' r' hrec
        subst hl
        subst hr
        rename_i hmem
        exact ⟨by simp [hdec], List.Forall₂.cons hmem hfa⟩
      · exact absurd h (by simp)

theorem unrelPat_countParen (lit : List Char)
    (h : List.Forall₂ (fun c alts => c ∈ alts) lit unrelPat) :
    countParen lit = 1 := by
  simp only [unrelPat, List.forall₂_cons_right_iff, List.forall₂_nil_right_iff] at h
  obtain ⟨c0, l0, hm0, ⟨c1, l1, hm1, ⟨c2, l2, hm2, ⟨c3, l3, hm3, ⟨c4, l4, hm4,
    ⟨c5, l5, hm5, ⟨c6, l6, hm6, ⟨c7, l7, hm7, ⟨c8, l8, hm8, ⟨c9, l9, hm9,
    ⟨c10, l10, hm10, ⟨c11, l11, hm11, rfl, rfl⟩, rfl⟩, rfl⟩, rfl⟩, rfl⟩, rfl⟩,
    rfl⟩, rfl⟩, rfl⟩, rfl⟩, rfl⟩, rfl⟩ := h
  rw [List.mem_singleton] at hm0
  subst hm0
  rw [List.mem_singleton] at hm11
  subst hm11
  have n1 := mem_pair_ne_paren _ _ _ (by decide) (by decide) hm1
  have n2 := mem_pair_ne_paren _ _ _ (by decide) (by decide) hm2
  have n3 := mem_pair_ne_paren _ _ _ (by decide) (by decide) hm3
  have n4 := mem_pair_ne_paren _ _ _ (by decide) (by decide) hm4
  have n5 := mem_pair_ne_paren _ _ _ (by decide) (by decide) hm5
  have n6 := mem_pair_ne_paren _ _ _ (by decide) (by decide) hm6
  have n7 := mem_pair_ne_paren _ _ _ (by decide) (by decide) hm7
  have n8 := mem_pair_ne_paren _ _ _ (by decide) (by decide) hm8
  have n9 := mem_pair_ne_paren _ _ _ (by decide) (by decide) hm9
  have n10 := mem_pair_ne_paren _ _ _ (by decide) (by decide) hm10
  simp [countParen, n1, n2, n3, n4, n5, n6, n7, n8, n9, n10]

/-- Each match of the strip regex decomposes the text as the kept header
(group 1, paren-free), skipped whitespace (paren-free), the matched
`(unreleased)` literal (exactly one paren), and the rest. -/
theorem matchStripAt_decomp (t g1 after : List Char)
    (h : matchStripAt t = some (g1, after)) :
    ∃ ws lit, t = g1 ++ ws ++ lit ++ after ∧
      countParen g1 = 0 ∧ countParen ws = 0 ∧ countParen lit = 1 := by
  unfold matchStripAt at h
  split at h
  case _ r0 =>
    rcases Option.bind_eq_some.mp h with ⟨⟨d1, r3⟩, h1, h⟩
    rcases Option.bind_eq_some.mp h with ⟨r4, h2, h⟩
    rcases Option.bind_eq_some.mp h with ⟨⟨d2, r5⟩, h3, h⟩
    rcases Option.bind_eq_some.mp h with ⟨r6, h4, h⟩
    rcases Option.bind_eq_some.mp h with ⟨⟨d3, r7⟩, h5, h⟩
    rcases Option.map_eq_some'.mp h with ⟨⟨lit, r10⟩, h6, h7⟩
    obtain ⟨hg1, hafter⟩ :
        '#' :: '#' :: (r0.takeWhile isPySpace ++
            (takeOptVCI (r0.dropWhile isPySpace)).1 ++
            d1 ++ '.' :: d2 ++ '.' :: d3 ++ (takeOptColon r7).1) = g1 ∧
          r10 = after := by
      simpa [Prod.ext_iff] using h7
    obtain ⟨hv1, hv2⟩ := takeOptVCI_decomp (r0.dropWhile isPySpace)
    obtain ⟨hc1, hc2⟩ := takeOptColon_decomp r7
    obtain ⟨hla, hfa⟩ := takeLitAlts_decomp _ _ _ _ h6
    have hd1 := takeDigits1_decomp _ _ _ h1
    have hd2 := takeDigits1_decomp _ _ _ h3
    have hd3 := takeDigits1_decomp _ _ _ h5
    have he1 : r3 = '.' :: r4 := expectDot_decomp _ _ h2
    have he2 : r5 = '.' :: r6 := expectDot_decomp _ _ h4
    have hla' : ((takeOptColon r7).2).dropWhile isPySpace = lit ++ r10 := hla
    obtain ⟨hs1, hsd1⟩ := takeDigits1_spec _ _ _ h1
    obtain ⟨hs2, hsd2⟩ := takeDigits1_spec _ _ _ h3
    obtain ⟨hs3, hsd3⟩ := takeDigits1_spec _ _ _ h5
    refine ⟨((takeOptColon r7).2).takeWhile isPySpace, lit, ?_, ?_, ?_, ?_⟩
    · subst hafter
      rw [← hg1]
      have hr0 : r0 = r0.takeWhile isPySpace ++ r0.dropWhile isPySpace :=
        (List.takeWhile_append_dropWhile _ _).symm
      have hr9 : (takeOptColon r7).2 =
          ((takeOptColon r7).2).takeWhile isPySpace ++
            ((takeOptColon r7).2).dropWhile isPySpace :=
        (List.takeWhile_append_dropWhile _ _).symm
      conv_lhs => rw [hr0, hv1, hd1, he1, hd2, he2, hd3, hc1, hr9, hla']
      simp [List.append_assoc]
    · rw [← hg1]
      rw [countParen_cons_ne _ _ (by decide), countParen_cons_ne _ _ (by decide)]
      have z1 : countParen (r0.takeWhile isPySpace) = 0 :=
        countParen_eq_zero _ (fun c hc =>
          isPySpace_ne_paren c (List.mem_takeWhile_imp hc))
      have z3 : countParen d1 = 0 :=
        countParen_eq_zero _ (fun c hc => isDigit_ne_paren c (hsd1 c hc))
      have z4 : countParen d2 = 0 :=
        countParen_eq_zero _ (fun c hc => isDigit_ne_paren c (hsd2 c hc))
      have z5 : countParen d3 = 0 :=
        countParen_eq_zero _ (fun c hc => isDigit_ne_paren c (hsd3 c hc))
      simp [countParen_append, z1, hv2, z3, z4, z5, hc2,
        countParen_cons_ne _ _ (show ('.' : Char) ≠ '(' by decide), countParen]
    · exact countParen_eq_zero _ (fun c hc =>
        isPySpace_ne_paren c (List.mem_takeWhile_imp hc))
    · exact unrelPat_countParen lit hfa
  case _ => exact absurd h (by simp)

theorem matchStripAt_countParen (t g1 after : List Char)
    (h : matchStripAt t = some (g1, after)) :
    countParen t = 1 + countParen after ∧ countParen g1 = 0 := by
  obtain ⟨ws, lit, heq, hg1, hws, hlit⟩ := matchStripAt_decomp t g1 after h
  refine ⟨?_, hg1⟩
  rw [heq]
  simp [countParen_append, hg1, hws, hlit]

theorem matchStripAt_length (t g1 after : List Char)
    (h : matchStripAt t = some (g1, after)) : after.length < t.length := by
  obtain ⟨ws, lit, heq, -, -, hlit⟩ := matchStripAt_decomp t g1 after h
  have hlitne : lit ≠ [] := by
    rintro rfl
    simp [countParen] at hlit
  have hpos : 0 < lit.length := List.length_pos.mpr hlitne
  rw [heq]
  simp only [List.length_append]
  omega

theorem matchStripAt_none_of_no_paren (t : List Char) (h : countParen t = 0) :
    matchStripAt t = none := by
  cases hms : matchStripAt t with
  | none => rfl
  | some p =>
    obtain ⟨g1, after⟩ := p
    have := (matchStripAt_countParen t g1 after hms).1
    omega

theorem stripFuel_nil (k : Nat) : stripFuel k [] = [] := by
  cases k <;> rfl

theorem stripFuel_congr : ∀ (m : Nat) (t : List Char) (n : Nat),
    t.length ≤ m → t.length ≤ n → stripFuel m t = stripFuel n t := by
  intro m
  induction m with
  | zero =>
    intro t n hm hn
    have ht : t = [] := List.length_eq_zero.mp (Nat.le_zero.mp hm)
    subst ht
    rw [stripFuel_nil, stripFuel_nil]
  | succ m ih =>
    intro t n hm hn
    cases t with
    | nil => rw [stripFuel_nil, stripFuel_nil]
    | cons c rest =>
      cases n with
      | zero => exact absurd hn (by simp)
      | succ n' =>
        show stripFuel (m + 1) (c :: rest) = stripFuel (n' + 1) (c :: rest)
        unfold stripFuel
        cases hms : matchStripAt (c :: rest) with
        | some p =>
          obtain ⟨g1, after⟩ := p
          have hl := matchStripAt_length _ _ _ hms
          have hlen : (c :: rest).length = rest.length + 1 := by simp
          show g1 ++ stripFuel m after = g1 ++ stripFuel n' after
          rw [ih after n' (by omega) (by omega)]
        | none =>
          have hm' : rest.length ≤ m := by
            simp only [List.length_cons] at hm
            omega
          have hn' : rest.length ≤ n' := by
            simp only [List.length_cons] at hn
            omega
          show c :: stripFuel m rest = c :: stripFuel n' rest
          rw [ih rest n' hm' hn']

theorem strip_unreleased_nil : strip_unreleased [] = [] := rfl

theorem strip_unreleased_match (t g1 after : List Char)
    (h : matchStripAt t = some (g1, after)) :
    strip_unreleased t = g1 ++ strip_unreleased after := by
  have hl := matchStripAt_length _ _ _ h
  cases t with
  | nil => exact absurd h (by simp [matchStripAt])
  | cons c rest =>
    show stripFuel (rest.length + 1) (c :: rest) = _
    unfold stripFuel
    rw [h]
    simp only [List.length_cons] at hl
    show g1 ++ stripFuel rest.length after = g1 ++ strip_unreleased after
    rw [stripFuel_congr rest.length after after.length (by omega) (le_refl _)]
    rfl

theorem strip_unreleased_cons_none (c : Char) (rest : List Char)
    (h : matchStripAt (c :: rest) = none) :
    strip_unreleased (c :: rest) = c :: strip_unreleased rest := by
  show stripFuel (rest.length + 1) (c :: rest) = _
  unfold stripFuel
  rw [h]
  rfl

theorem strip_unreleased_no_paren : ∀ (n : Nat) (t : List Char), t.length ≤ n →
    countParen t = 0 → strip_unreleased t = t := by
  intro n
  induction n with
  | zero =>
    intro t ht h
    have : t = [] := List.length_eq_zero.mp (Nat.le_zero.mp ht)
    subst this
    rfl
  | succ n ih =>
    intro t ht h
    cases t with
    | nil => rfl
    | cons c rest =>
      rw [strip_unreleased_cons_none c rest (matchStripAt_none_of_no_paren _ h)]
      have hrest : countParen rest = 0 := by
        simp only [countParen] at h
        omega
      have hlen : rest.length ≤ n := by
        simp only [List.length_cons] at ht
        omega
      rw [ih rest hlen hrest]

/-- With at most one `'('` in the text, one pass either leaves the text
unchanged or removes its only paren. -/
theorem strip_unreleased_paren_drop : ∀ (n : Nat) (t : List Char),
    t.length ≤ n → countParen t ≤ 1 →
    countParen (strip_unreleased t) = 0 ∨ strip_unreleased t = t := by
  intro n
  induction n with
  | zero =>
    intro t ht h
    have : t = [] := List.length_eq_zero.mp (Nat.le_zero.mp ht)
    subst this
    exact Or.inr rfl
  | succ n ih =>
    intro t ht h
    cases hms : matchStripAt t with
    | some p =>
      obtain ⟨g1, after⟩ := p
      left
      rw [strip_unreleased_match t g1 after hms]
      obtain ⟨hcount, hg1⟩ := matchStripAt_countParen t g1 after hms
      have hafter : countParen after = 0 := by omega
      rw [strip_unreleased_no_paren after.length after (le_refl _) hafter]
      simp [countParen_append, hg1, hafter]
    | none =>
      cases t with
      | nil => exact Or.inr rfl
      | cons c rest =>
        have hrest_len : rest.length ≤ n := by
          simp only [List.length_cons] at ht
          omega
        have hrest_cnt : countParen rest ≤ 1 := by
          simp only [countParen] at h
          omega
        rw [strip_unreleased_cons_none c rest hms]
        rcases ih rest hrest_len hrest_cnt with h0 | heq
        · by_cases hceq : strip_unreleased rest = rest
          · exact Or.inr (by rw [hceq])
          · have h1 : 1 ≤ countParen rest := by
              by_contra hc
              push_neg at hc
              exact hceq (strip_unreleased_no_paren rest.length rest (le_refl _)
                (by omega))
            have hcne : c ≠ '(' := by
              rintro rfl
              simp [countParen] at h
              omega
            left
            rw [countParen_cons_ne c _ hcne]
            exact h0
        · exact Or.inr (by rw [heq])

/-- Idempotence of the strip on texts with at most one `'('`. -/
theorem strip_unreleased_idem_aux : ∀ (n : Nat) (t : List Char),
    t.length ≤ n → countParen t ≤ 1 →
    strip_unreleased (strip_unreleased t) = strip_unreleased t := by
  intro n
  induction n with
  | zero =>
    intro t ht h
    have : t = [] := List.length_eq_zero.mp (Nat.le_zero.mp ht)
    subst this
    rfl
  | succ n ih =>
    intro t ht h
    cases hms : matchStripAt t with
    | some p =>
      obtain ⟨g1, after⟩ := p
      rw [strip_unreleased_match t g1 after hms]
      obtain ⟨hcount, hg1⟩ := matchStripAt_countParen t g1 after hms
      have hafter : countParen after = 0 := by omega
      rw [strip_unreleased_no_paren after.length after (le_refl _) hafter]
      apply strip_unreleased_no_paren (g1 ++ after).length _ (le_refl _)
      simp [countParen_append, hg1, hafter]
    | none =>
      cases t with
      | nil => rfl
      | cons c rest =>
        have hrest_len : rest.length ≤ n := by
          simp only [List.length_cons] at ht
          omega
        have hrest_cnt : countParen rest ≤ 1 := by
          simp only [countParen] at h
          omega
        rw [strip_unreleased_cons_none c rest hms]
        have hnomatch : matchStripAt (c :: strip_unreleased rest) = none := by
          by_cases hceq : strip_unreleased rest = rest
          · rw [hceq]
            exact hms
          · rcases strip_unreleased_paren_drop rest.length rest (le_refl _)
              hrest_cnt with h0 | heq
            · have h1 : 1 ≤ countParen rest := by
                by_contra hc
                push_neg at hc
                exact hceq (strip_unreleased_no_paren rest.length rest (le_refl _)
                  (by omega))
              have hcne : c ≠ '(' := by
                rintro rfl
                simp [countParen] at h
                omega
              apply matchStripAt_none_of_no_paren
              rw [countParen_cons_ne c _ hcne]
              exact h0
            · exact absurd heq hceq
        rw [strip_unreleased_cons_none c _ hnomatch]
        rw [ih rest hrest_len hrest_cnt]

/-- C6 counterexample: with a doubled marker, the first substitution consumes
only the first `(unreleased)` (scanning resumes after the matched text), so a
second application strips again — the strip is not idempotent on all
changelog texts. -/
theorem strip_unreleased_not_idempotent :
    strip_unreleased "## v1.2.3: (unreleased) (unreleased)".toList =
      "## v1.2.3: (unreleased)".toList ∧
    strip_unreleased
        (strip_unreleased "## v1.2.3: (unreleased) (unreleased)".toList) =
      "## v1.2.3:".toList ∧
    "## v1.2.3:".toList ≠ "## v1.2.3: (unreleased)".toList := by
  refine ⟨by decide, by decide, by decide⟩

/-- C6 (amended): the strip turns `"## v1.2.3: (unreleased)"` into
`"## v1.2.3:"` leaving the entry lines untouched, matches the marker
case-insensitively, and applying it twice equals applying it once for any
changelog text containing at most one `'('` character (in particular any text
with at most one parenthesized marker). -/
theorem strip_unreleased_spec (t : List Char) (h : countParen t ≤ 1) :
    strip_unreleased "## v1.2.3: (unreleased)\n- A\n- B\n".toList =
      "## v1.2.3:\n- A\n- B\n".toList ∧
    strip_unreleased "## V1.2.3: (UNRELEASED)\n- A\n".toList =
      "## V1.2.3:\n- A\n".toList ∧
    strip_unreleased (strip_unreleased t) = strip_unreleased t := by
  exact ⟨by decide, by decide,
    strip_unreleased_idem_aux t.length t (le_refl _) h⟩

/-- C6 witness: stripping the single-marker example twice equals stripping it
once. -/
theorem strip_unreleased_spec_witness :
    strip_unreleased
        (strip_unreleased "## v1.2.3: (unreleased)\n- A\n".toList) =
      strip_unreleased "## v1.2.3: (unreleased)\n- A\n".toList :=
  (strip_unreleased_spec "## v1.2.3: (unreleased)\n- A\n".toList (by decide)).2.2
